import Mathlib

/-!
Verification of `release.py`: the commit normalizer, the bump evaluator
(`evaluate_version_bump`), the changelog builder (`generate_changelog`), the
changelog renderer (`markdown_changelog`) and the post-fetch decision logic of
`main`, embedded as pure Lean functions.  The commit-message parser, the
`LEVELS` severity table and `get_new_version` are imported by `release.py` from
the external semantic-release library and are modelled from the spec where
needed.  Strings are treated at the character-list level (ASCII case mapping
embeds Python's single-character `.upper()`/`.lower()`).
-/

namespace Release

/-- `ParsedCommit` — the structured record the commit-message parser returns
(`semantic_release.history.parser_helpers.ParsedCommit`): bump severity, type
label, optional scope, description paragraphs, breaking-change paragraphs. -/
structure ParsedCommit where
  bump : Nat
  type : String
  scope : Option String
  descriptions : List String
  breaking_descriptions : List String
deriving Repr, DecidableEq

/-- A commit-message parser, as passed to `evaluate_version_bump` and
`generate_changelog` via the `commit_parser` argument of `release.py`;
`none` models a raised `UnknownCommitMessageStyleError`. -/
abbrev CommitParser := String → Option ParsedCommit

/-- `Commit._normalize` from `release.py`: `message.replace("\r", "\n")`.
The pattern is the single character `"\r"`, so the replacement is embedded
characterwise. -/
def normalizeMessage (message : String) : String :=
  String.mk (message.data.map (fun c => if c = '\r' then '\n' else c))

/-- `Commit` — an immutable (sha, message) pair. -/
structure Commit where
  sha : String
  message : String
deriving Repr, DecidableEq

/-- `Commit.__init__` from `release.py`: stores the sha and the normalized
message. -/
def mkCommit (sha message : String) : Commit :=
  { sha := sha, message := normalizeMessage message }

/-- Modelled from the spec: `LEVELS`, the closed severity-to-level enumeration
`release.py` imports from the external semantic-release library
(`semantic_release.history.logs.LEVELS`, not part of this repository):
severity 1 ↦ "patch", 2 ↦ "minor", 3 ↦ "major" (§3 BumpLevel); `none` models
`level not in LEVELS`. -/
def LEVELS (level : Nat) : Option String :=
  if level = 1 then some "patch"
  else if level = 2 then some "minor"
  else if level = 3 then some "major"
  else none

/-- `evaluate_version_bump` from `release.py`, together with its observable
warning: the loop appends each parsed commit's `bump` to `changes`, skipping
commits the parser rejects; if `changes` is non-empty the maximum severity is
looked up in `LEVELS` to produce the bump label, and when that lookup misses,
the line `print(f"Unknown bump level {level}")` runs — recorded here as the
`Bool` component of the result. -/
def evaluateVersionBumpFull (commits : List Commit) (commitParser : CommitParser) :
    Option String × Bool :=
  let changes := commits.foldl (fun acc commit =>
    match commitParser commit.message with
    | some message => acc ++ [message.bump]
    | none => acc) []
  match changes with
  | [] => (none, false)
  | c :: cs =>
    match LEVELS (cs.foldl max c) with
    | some lbl => (some lbl, false)
    | none => (none, true)

/-- The return value of `evaluate_version_bump`. -/
def evaluate_version_bump (commits : List Commit) (commitParser : CommitParser) :
    Option String :=
  (evaluateVersionBumpFull commits commitParser).1

/-- Whether `evaluate_version_bump` printed the "Unknown bump level" warning. -/
def evaluateWarned (commits : List Commit) (commitParser : CommitParser) : Bool :=
  (evaluateVersionBumpFull commits commitParser).2

/-- The severities of the successfully parsed commits, in input order
(the final value of the `changes` list inside `evaluate_version_bump`). -/
def parsedBumps (commits : List Commit) (commitParser : CommitParser) : List Nat :=
  commits.filterMap (fun commit => (commitParser commit.message).map ParsedCommit.bump)

/-- `max(changes)` in Python; `0` on the empty list (only used on non-empty
lists). -/
def listMax : List Nat → Nat
  | [] => 0
  | c :: cs => cs.foldl max c

/-- A `ChangelogIndex`: the insertion-ordered `dict` built by
`generate_changelog`, as an association list from type label to the ordered
`(sha, description)` entries. -/
abbrev Changelog := List (String × List (String × String))

/-- `key in changes` on the changelog dict. -/
def clContains (changes : Changelog) (key : String) : Bool :=
  changes.any (fun p => p.1 == key)

/-- `changes[key]` on the changelog dict (`[]` when the key is absent). -/
def clGet (changes : Changelog) (key : String) : List (String × String) :=
  match changes.find? (fun p => p.1 == key) with
  | some p => p.2
  | none => []

/-- `changes[key].append(v)`; every call site in `generate_changelog` appends to
a key that is already present. -/
def clAppend (changes : Changelog) (key : String) (v : String × String) : Changelog :=
  changes.map (fun p => if p.1 == key then (p.1, p.2 ++ [v]) else p)

/-- `message.descriptions[0][0].upper() + message.descriptions[0][1:]` from
`generate_changelog`: exactly the first character of the first description is
uppercased; `none` models the uncaught `IndexError` raised when the description
list, or its first paragraph, is empty. -/
def capitalMessage (descriptions : List String) : Option String :=
  match descriptions with
  | [] => none
  | d :: _ =>
    match d.data with
    | [] => none
    | c :: rest => some (String.mk (c.toUpper :: rest))

/-- One iteration of the `for commit in commits` loop of `generate_changelog`:
a parser failure skips the commit; otherwise the commit's type key is created
if absent, `(sha, capital_message)` is appended under it, then each
`breaking_descriptions` paragraph is appended under `"breaking"` — or, when
there are none and `bump == 3`, the uncapitalized first description is.
`none` models the uncaught `IndexError` from `capital_message`. -/
def changelogStep (commitParser : CommitParser) (changes : Changelog)
    (commit : Commit) : Option Changelog :=
  match commitParser commit.message with
  | none => some changes
  | some message =>
    match capitalMessage message.descriptions with
    | none => none
    | some capital =>
      let changes1 := if clContains changes message.type then changes
                      else changes ++ [(message.type, [])]
      let changes2 := clAppend changes1 message.type (commit.sha, capital)
      let changes3 :=
        if message.breaking_descriptions.isEmpty then
          if message.bump = 3 then
            clAppend changes2 "breaking" (commit.sha, message.descriptions.headD "")
          else changes2
        else
          message.breaking_descriptions.foldl
            (fun acc paragraph => clAppend acc "breaking" (commit.sha, paragraph))
            changes2
      some changes3

/-- `generate_changelog` from `release.py`: starts from `{"breaking": []}` and
runs the loop body over the commits in order. -/
def generate_changelog (commits : List Commit) (commitParser : CommitParser) :
    Option Changelog :=
  commits.foldlM (changelogStep commitParser) [("breaking", [])]

/-- `changes1` of the loop body: the commit's type key, created at the end if
absent. -/
def stepChanges1 (changes : Changelog) (ty : String) : Changelog :=
  if clContains changes ty then changes else changes ++ [(ty, [])]

/-- `changes2` of the loop body: the `(sha, capital_message)` entry appended
under the type key. -/
def stepChanges2 (changes : Changelog) (sha : String) (message : ParsedCommit)
    (capital : String) : Changelog :=
  clAppend (stepChanges1 changes message.type) message.type (sha, capital)

/-- `changes3` of the loop body: the breaking-section contribution applied on
top of `stepChanges2`. -/
def stepResult (changes : Changelog) (sha : String) (message : ParsedCommit)
    (capital : String) : Changelog :=
  if message.breaking_descriptions.isEmpty then
    if message.bump = 3 then
      clAppend (stepChanges2 changes sha message capital) "breaking"
        (sha, message.descriptions.headD "")
    else stepChanges2 changes sha message capital
  else
    message.breaking_descriptions.foldl
      (fun acc paragraph => clAppend acc "breaking" (sha, paragraph))
      (stepChanges2 changes sha message capital)

/-- Python `str.capitalize()` (ASCII): first character uppercased, every other
character lowercased. -/
def pyCapitalize (s : String) : String :=
  match s.data with
  | [] => ""
  | c :: rest => String.mk (c.toUpper :: rest.map Char.toLower)

/-- `markdown_changelog` from `release.py`: optional `## v<version>` header,
then for each section with entries a `### <section.capitalize()>` header and one
`* <description> (<sha>)` line per entry; sections with no entries are
skipped. -/
def markdown_changelog (version : String) (changelog : Changelog)
    (header : Bool) : String :=
  let start := if header then "## v" ++ version ++ "\n" else ""
  changelog.foldl (fun output sec =>
    if sec.2.length = 0 then output
    else
      sec.2.foldl (fun out item => out ++ "* " ++ item.2 ++ " (" ++ item.1 ++ ")\n")
        (output ++ "\n### " ++ pyCapitalize sec.1 ++ "\n")) start

/-- Concatenation of a list of strings. -/
def joinStrings : List String → String
  | [] => ""
  | s :: rest => s ++ joinStrings rest

/-- Declarative form of one rendered section: empty output for a key with no
entries, otherwise the header followed by one bulleted line per entry. -/
def renderSection (sec : String × List (String × String)) : String :=
  if sec.2.length = 0 then ""
  else "\n### " ++ pyCapitalize sec.1 ++ "\n" ++
    joinStrings (sec.2.map (fun item => "* " ++ item.2 ++ " (" ++ item.1 ++ ")\n"))

/-- The header rule as the claim states it: first character uppercased, every
other character unchanged. -/
def specCapitalizeFirstOnly (s : String) : String :=
  match s.data with
  | [] => ""
  | c :: rest => String.mk (c.toUpper :: rest)

/-- The commit-type tokens of the conventional grammar (§4.2: "feat", "fix",
"docs", …). -/
def knownTypes : List String :=
  ["feat", "fix", "docs", "style", "refactor", "perf", "test", "build", "ci", "chore"]

/-- Whether the first list starts with the second. -/
def startsWithChars : List Char → List Char → Bool
  | _, [] => true
  | [], _ :: _ => false
  | a :: as, b :: bs => a == b && startsWithChars as bs

/-- Splits a character list at the first occurrence of `c`; `none` when `c`
does not occur. -/
def splitAtChar (c : Char) : List Char → Option (List Char × List Char)
  | [] => none
  | x :: xs =>
    if x = c then some ([], xs)
    else (splitAtChar c xs).map (fun p => (x :: p.1, p.2))

/-- Splits a character list on `"\n\n"` separators (leftmost first). -/
def splitParasAux : List Char → List Char → List (List Char)
  | cur, '\n' :: '\n' :: rest => cur.reverse :: splitParasAux [] rest
  | cur, ch :: rest => splitParasAux (ch :: cur) rest
  | cur, [] => [cur.reverse]

/-- The non-empty paragraphs of a message: blocks separated by blank lines. -/
def paragraphs (s : String) : List (List Char) :=
  (splitParasAux [] s.data).filter (fun p => !p.isEmpty)

/-- The optional parenthesized scope after the type token: returns the scope
(if any) and the remaining characters; `none` when an opening parenthesis is
never closed. -/
def parseScope : List Char → Option (Option String × List Char)
  | '(' :: more =>
    (splitAtChar ')' more).map (fun p => ((some (String.mk p.1) : Option String), p.2))
  | rest => some ((none : Option String), rest)

/-- The optional `!` breaking marker. -/
def parseBang : List Char → Bool × List Char
  | '!' :: more => (true, more)
  | rest => (false, rest)

/-- The `": "` separator followed by a non-empty summary. -/
def parseSummary : List Char → Option String
  | ':' :: ' ' :: summary =>
    if summary.isEmpty then none else some (String.mk summary)
  | _ => none

/-- Modelled from the spec (§4.2): parsing of a conventional header line
`type(scope)!: summary` — a recognized type token, an optional parenthesized
scope, an optional `!` breaking marker, then `": "` and a non-empty summary. -/
def parseHeader (header : List Char) :
    Option (String × Option String × Bool × String) :=
  match knownTypes.find? (fun t => startsWithChars header t.data) with
  | none => none
  | some t =>
    match parseScope (header.drop t.data.length) with
    | none => none
    | some (scope, rest1) =>
      match parseSummary (parseBang rest1).2 with
      | none => none
      | some summary => some (t, scope, (parseBang rest1).1, summary)

/-- Modelled from the spec: the Commit Message Parser (§4.2).  `release.py`
imports it from the external semantic-release library (`angular_parser`), which
is not part of this repository.  Following the spec's contract: the header
yields `type`, `scope` and the summary; the summary plus the body paragraphs
form `descriptions`; paragraphs introduced by the `BREAKING CHANGE: ` marker
form `breaking_descriptions` (marker stripped); `bump` is 2 for "feat", 1 for
"fix", 0 for other recognized types, elevated to 3 when a breaking marker or
`!` is present.  `none` is the "unrecognized commit style" outcome. -/
def parse_commit_message (message : String) : Option ParsedCommit :=
  match paragraphs message with
  | [] => none
  | header :: body =>
    match parseHeader header with
    | none => none
    | some (t, scope, bang, summary) =>
      let marker := "BREAKING CHANGE: ".data
      let breakingDescs := (body.filter (fun p => startsWithChars p marker)).map
        (fun p => String.mk (p.drop marker.length))
      let descriptions := summary :: body.map String.mk
      let baseBump : Nat := if t = "feat" then 2 else if t = "fix" then 1 else 0
      let bump := if bang || !breakingDescs.isEmpty then 3 else baseBump
      some { bump := bump, type := t, scope := scope,
             descriptions := descriptions, breaking_descriptions := breakingDescs }

/-- The value of a decimal numeral. -/
def charsToNat (cs : List Char) : Nat :=
  cs.foldl (fun n c => 10 * n + (c.toNat - '0'.toNat)) 0

/-- The decimal digits of a number (`fuel` bounds the recursion; callers pass
`n + 1`, which always suffices). -/
def natToCharsAux : Nat → Nat → List Char
  | 0, _ => []
  | fuel + 1, n =>
    if n < 10 then [Char.ofNat ('0'.toNat + n)]
    else natToCharsAux fuel (n / 10) ++ [Char.ofNat ('0'.toNat + n % 10)]

/-- Decimal rendering of a number. -/
def natToString (n : Nat) : String :=
  String.mk (natToCharsAux (n + 1) n)

/-- Modelled from the spec (§4.6): `get_new_version` from the external
semantic-release library — standard semantic-version increment on
`MAJOR.MINOR.PATCH`: major resets minor and patch to zero, minor resets patch
to zero, patch increments only the patch component. -/
def get_new_version (current : String) (bump : String) : String :=
  match splitAtChar '.' current.data with
  | none => current
  | some (a, rest) =>
    match splitAtChar '.' rest with
    | none => current
    | some (b, c) =>
      let next :=
        if bump = "major" then (charsToNat a + 1, 0, 0)
        else if bump = "minor" then (charsToNat a, charsToNat b + 1, 0)
        else if bump = "patch" then (charsToNat a, charsToNat b, charsToNat c + 1)
        else (charsToNat a, charsToNat b, charsToNat c)
      natToString next.1 ++ "." ++ natToString next.2.1 ++ "." ++ natToString next.2.2

/-- The externally visible mutations `main` of `release.py` can perform, in
program order. -/
inductive Effect
  | writeVersionFile (contents : String)
  | gitAdd (file : String)
  | gitCommit (msg : String)
  | gitTag (tag : String)
  | gitPush
  | createRelease (tag body : String)
deriving Repr, DecidableEq

/-- How a run of `main` ends. -/
inductive RunOutcome
  | exited (code : Nat)
  | crashed
  | finished
deriving Repr, DecidableEq

/-- The decision logic of `main` in `release.py` once the commit list has been
collected (lines 159–192), with the process exit and the external mutations
made explicit: more than 100 commits aborts with exit code 1 before any
mutation; a `None` bump returns with no mutation; an uncaught exception in
`generate_changelog` crashes before any mutation; otherwise the version file is
written, committed, tagged, pushed, and the release is published with the
rendered changelog as its body (the tag-visibility poll is read-only and has no
effect component). -/
def mainAfterFetch (currentVersion : String) (commits : List Commit) :
    RunOutcome × List Effect :=
  if commits.length > 100 then (RunOutcome.exited 1, [])
  else
    match evaluate_version_bump commits parse_commit_message with
    | none => (RunOutcome.finished, [])
    | some bump =>
      let nextVersion := get_new_version currentVersion bump
      let nextTag := "v" ++ nextVersion
      match generate_changelog commits parse_commit_message with
      | none => (RunOutcome.crashed, [])
      | some changes =>
        let md := markdown_changelog nextVersion changes true
        (RunOutcome.finished,
          [Effect.writeVersionFile nextVersion, Effect.gitAdd "version_number",
           Effect.gitCommit ("Bump to version " ++ nextTag), Effect.gitTag nextTag,
           Effect.gitPush, Effect.createRelease nextTag md])

/-! ## Lemmas about the bump evaluator -/

theorem changes_foldl_eq_parsedBumps (p : CommitParser) (commits : List Commit) :
    ∀ acc : List Nat,
      commits.foldl (fun acc commit =>
        match p commit.message with
        | some message => acc ++ [message.bump]
        | none => acc) acc = acc ++ parsedBumps commits p := by
  induction commits with
  | nil => intro acc; simp [parsedBumps]
  | cons c cs ih =>
    intro acc
    simp only [List.foldl_cons, parsedBumps, List.filterMap_cons]
    cases h : p c.message with
    | none => simpa [h, parsedBumps] using ih acc
    | some m =>
      simp only [h, Option.map_some]
      rw [ih (acc ++ [m.bump])]
      simp [parsedBumps]

theorem evaluateVersionBumpFull_eq (commits : List Commit) (p : CommitParser) :
    evaluateVersionBumpFull commits p =
      match parsedBumps commits p with
      | [] => ((none : Option String), false)
      | c :: cs =>
        match LEVELS (cs.foldl max c) with
        | some lbl => (some lbl, false)
        | none => (none, true) := by
  unfold evaluateVersionBumpFull
  rw [changes_foldl_eq_parsedBumps p commits []]
  simp

theorem listMax_eq_foldl (l : List Nat) : listMax l = l.foldl max 0 := by
  cases l with
  | nil => rfl
  | cons c cs => simp [listMax, Nat.zero_max]

theorem evaluate_version_bump_eq (commits : List Commit) (p : CommitParser) :
    evaluate_version_bump commits p =
      if parsedBumps commits p = [] then none
      else LEVELS (listMax (parsedBumps commits p)) := by
  unfold evaluate_version_bump
  rw [evaluateVersionBumpFull_eq]
  cases h : parsedBumps commits p with
  | nil => simp
  | cons c cs =>
    simp only [listMax]
    cases LEVELS (cs.foldl max c) <;> simp

theorem evaluateWarned_eq (commits : List Commit) (p : CommitParser) :
    evaluateWarned commits p =
      (!(parsedBumps commits p).isEmpty &&
        (LEVELS (listMax (parsedBumps commits p))).isNone) := by
  unfold evaluateWarned
  rw [evaluateVersionBumpFull_eq]
  cases h : parsedBumps commits p with
  | nil => simp
  | cons c cs =>
    simp only [listMax]
    cases LEVELS (cs.foldl max c) <;> simp

theorem perm_filterMap (f : α → Option β) {l₁ l₂ : List α} (h : l₁.Perm l₂) :
    (l₁.filterMap f).Perm (l₂.filterMap f) := by
  induction h with
  | nil => simp
  | cons x _ ih =>
    simp only [List.filterMap_cons]
    cases f x with
    | none => exact ih
    | some b => exact ih.cons b
  | swap x y l =>
    simp only [List.filterMap_cons]
    cases f x <;> cases f y <;> first
      | exact List.Perm.refl _
      | exact List.Perm.swap _ _ _
  | trans _ _ ih₁ ih₂ => exact ih₁.trans ih₂

theorem parsedBumps_perm (p : CommitParser) {l₁ l₂ : List Commit} (h : l₁.Perm l₂) :
    (parsedBumps l₁ p).Perm (parsedBumps l₂ p) := by
  unfold parsedBumps
  exact perm_filterMap _ h

theorem listMax_perm {l₁ l₂ : List Nat} (h : l₁.Perm l₂) : listMax l₁ = listMax l₂ := by
  haveI : RightCommutative (max : Nat → Nat → Nat) :=
    ⟨fun b a₁ a₂ => Max.right_comm b a₁ a₂⟩
  rw [listMax_eq_foldl, listMax_eq_foldl]
  exact h.foldl_eq 0

/-! ## Lemmas about the changelog association list -/

theorem clContains_cons (p : String × List (String × String)) (ps : Changelog) (k : String) :
    clContains (p :: ps) k = ((p.1 == k) || clContains ps k) := by
  simp [clContains]

theorem clGet_cons_pos {p : String × List (String × String)} {ps : Changelog} {k : String}
    (h : (p.1 == k) = true) : clGet (p :: ps) k = p.2 := by
  unfold clGet
  rw [@List.find?_cons_of_pos _ (fun q => q.1 == k) p ps h]

theorem clGet_cons_neg {p : String × List (String × String)} {ps : Changelog} {k : String}
    (h : (p.1 == k) = false) : clGet (p :: ps) k = clGet ps k := by
  unfold clGet
  rw [@List.find?_cons_of_neg _ (fun q => q.1 == k) p ps (by simp [h])]

theorem clAppend_cons (p : String × List (String × String)) (ps : Changelog)
    (key : String) (v : String × String) :
    clAppend (p :: ps) key v =
      (if p.1 == key then (p.1, p.2 ++ [v]) else p) :: clAppend ps key v := rfl

theorem clContains_clAppend (key : String) (v : String × String) (k : String) :
    ∀ changes : Changelog, clContains (clAppend changes key v) k = clContains changes k := by
  intro changes
  induction changes with
  | nil => rfl
  | cons p ps ih =>
    rw [clAppend_cons, clContains_cons, clContains_cons, ih]
    by_cases hp : (p.1 == key) = true <;> simp [hp]

theorem clContains_append (changes l : Changelog) (k : String) :
    clContains (changes ++ l) k = (clContains changes k || clContains l k) := by
  simp [clContains, List.any_append]

theorem clGet_of_not_contains (key : String) :
    ∀ changes : Changelog, clContains changes key = false → clGet changes key = [] := by
  intro changes
  induction changes with
  | nil => intro _; rfl
  | cons p ps ih =>
    intro h
    rw [clContains_cons, Bool.or_eq_false_iff] at h
    rw [clGet_cons_neg h.1]
    exact ih h.2

theorem clGet_append_of_contains (key : String) (l : Changelog) :
    ∀ changes : Changelog, clContains changes key = true →
      clGet (changes ++ l) key = clGet changes key := by
  intro changes
  induction changes with
  | nil => intro h; simp [clContains] at h
  | cons p ps ih =>
    intro h
    rw [List.cons_append]
    by_cases hp : (p.1 == key) = true
    · rw [clGet_cons_pos hp, clGet_cons_pos hp]
    · have hp' : (p.1 == key) = false := by simpa using hp
      rw [clContains_cons, hp', Bool.false_or] at h
      rw [clGet_cons_neg hp', clGet_cons_neg hp']
      exact ih h

theorem clGet_append_new (key : String) (entries : List (String × String)) :
    ∀ changes : Changelog, clContains changes key = false →
      clGet (changes ++ [(key, entries)]) key = entries := by
  intro changes
  induction changes with
  | nil => intro _; exact clGet_cons_pos (by simp)
  | cons p ps ih =>
    intro h
    rw [clContains_cons, Bool.or_eq_false_iff] at h
    rw [List.cons_append, clGet_cons_neg h.1]
    exact ih h.2

theorem clGet_clAppend_self (key : String) (v : String × String) :
    ∀ changes : Changelog, clContains changes key = true →
      clGet (clAppend changes key v) key = clGet changes key ++ [v] := by
  intro changes
  induction changes with
  | nil => intro h; simp [clContains] at h
  | cons p ps ih =>
    intro h
    rw [clAppend_cons]
    by_cases hp : (p.1 == key) = true
    · rw [if_pos hp, clGet_cons_pos (p := (p.1, p.2 ++ [v])) hp, clGet_cons_pos hp]
    · have hp' : (p.1 == key) = false := by simpa using hp
      rw [clContains_cons, hp', Bool.false_or] at h
      rw [if_neg hp, clGet_cons_neg hp', clGet_cons_neg hp']
      exact ih h

theorem clGet_clAppend_ne (key k : String) (v : String × String) (hne : k ≠ key) :
    ∀ changes : Changelog, clGet (clAppend changes key v) k = clGet changes k := by
  intro changes
  induction changes with
  | nil => rfl
  | cons p ps ih =>
    rw [clAppend_cons]
    by_cases hp : (p.1 == key) = true
    · have hk : (p.1 == k) = false := by
        have h1 : p.1 = key := by simpa using hp
        rw [h1]
        exact beq_eq_false_iff_ne.mpr (fun h => hne h.symm)
      rw [if_pos hp, clGet_cons_neg (p := (p.1, p.2 ++ [v])) hk, clGet_cons_neg hk]
      exact ih
    · by_cases hk : (p.1 == k) = true
      · rw [if_neg hp, clGet_cons_pos hk, clGet_cons_pos hk]
      · have hk' : (p.1 == k) = false := by simpa using hk
        rw [if_neg hp, clGet_cons_neg hk', clGet_cons_neg hk']
        exact ih

theorem clContains_foldl_clAppend (sha bk k : String) :
    ∀ (l : List String) (changes : Changelog),
      clContains (l.foldl (fun acc paragraph => clAppend acc bk (sha, paragraph)) changes) k =
        clContains changes k := by
  intro l
  induction l with
  | nil => intro changes; rfl
  | cons x xs ih =>
    intro changes
    rw [List.foldl_cons, ih, clContains_clAppend]

theorem clGet_foldl_clAppend (sha bk : String) :
    ∀ (l : List String) (changes : Changelog), clContains changes bk = true →
      clGet (l.foldl (fun acc paragraph => clAppend acc bk (sha, paragraph)) changes) bk =
        clGet changes bk ++ l.map (fun paragraph => (sha, paragraph)) := by
  intro l
  induction l with
  | nil => intro changes _; simp
  | cons x xs ih =>
    intro changes h
    rw [List.foldl_cons, List.map_cons,
      ih _ (by rw [clContains_clAppend]; exact h),
      clGet_clAppend_self bk (sha, x) changes h, List.append_assoc]
    rfl

theorem clGet_foldl_clAppend_ne (sha bk k : String) (hne : k ≠ bk) :
    ∀ (l : List String) (changes : Changelog),
      clGet (l.foldl (fun acc paragraph => clAppend acc bk (sha, paragraph)) changes) k =
        clGet changes k := by
  intro l
  induction l with
  | nil => intro changes; rfl
  | cons x xs ih =>
    intro changes
    rw [List.foldl_cons, ih, clGet_clAppend_ne bk k (sha, x) hne]

/-! ## Lemmas about the spec-modelled parser -/

theorem parseSummary_ne {cs : List Char} {summary : String}
    (h : parseSummary cs = some summary) : summary.data ≠ [] := by
  unfold parseSummary at h
  split at h
  · split at h
    · exact absurd h (by simp)
    · rename_i s hne
      cases h
      intro hd
      exact hne (by simpa [List.isEmpty_iff] using hd)
  · exact absurd h (by simp)

theorem parseHeader_shape {header : List Char} {t : String} {scope : Option String}
    {bang : Bool} {summary : String}
    (h : parseHeader header = some (t, scope, bang, summary)) :
    t ∈ knownTypes ∧ summary.data ≠ [] := by
  unfold parseHeader at h
  split at h
  · exact absurd h (by simp)
  · rename_i t' hfind
    split at h
    · exact absurd h (by simp)
    · rename_i scope' rest1 hscope
      split at h
      · exact absurd h (by simp)
      · rename_i summary' hsum
        cases h
        exact ⟨List.mem_of_find?_eq_some hfind, parseSummary_ne hsum⟩

theorem parse_commit_message_shape {message : String} {pc : ParsedCommit}
    (h : parse_commit_message message = some pc) :
    pc.type ∈ knownTypes ∧ pc.descriptions ≠ [] ∧
      (pc.descriptions.headD "").data ≠ [] := by
  unfold parse_commit_message at h
  split at h
  · exact absurd h (by simp)
  · rename_i header body hpara
    split at h
    · exact absurd h (by simp)
    · rename_i t scope bang summary hheader
      cases h
      obtain ⟨hmem, hne⟩ := parseHeader_shape hheader
      exact ⟨hmem, by simp, hne⟩

theorem parse_type_ne_breaking {message : String} {pc : ParsedCommit}
    (h : parse_commit_message message = some pc) : pc.type ≠ "breaking" := by
  intro he
  have hmem := (parse_commit_message_shape h).1
  rw [he] at hmem
  exact absurd hmem (by decide)

theorem parse_capitalMessage_isSome {message : String} {pc : ParsedCommit}
    (h : parse_commit_message message = some pc) :
    ∃ capital, capitalMessage pc.descriptions = some capital := by
  obtain ⟨-, hne, hhd⟩ := parse_commit_message_shape h
  cases hd : pc.descriptions with
  | nil => exact absurd hd hne
  | cons d tail =>
    rw [hd, List.headD_cons] at hhd
    cases hdata : d.data with
    | nil => exact absurd hdata hhd
    | cons c rest =>
      exact ⟨String.mk (c.toUpper :: rest), by simp [capitalMessage, hdata]⟩

/-! ## Lemmas about the changelog-builder loop body -/

theorem changelogStep_unrecognized {parser : CommitParser} {changes : Changelog}
    {commit : Commit} (hp : parser commit.message = none) :
    changelogStep parser changes commit = some changes := by
  unfold changelogStep
  rw [hp]

theorem changelogStep_none_capital {parser : CommitParser} {changes : Changelog}
    {commit : Commit} {message : ParsedCommit}
    (hp : parser commit.message = some message)
    (hcap : capitalMessage message.descriptions = none) :
    changelogStep parser changes commit = none := by
  unfold changelogStep
  simp only [hp, hcap]

theorem changelogStep_eq {parser : CommitParser} {changes : Changelog}
    {commit : Commit} {message : ParsedCommit} {capital : String}
    (hp : parser commit.message = some message)
    (hcap : capitalMessage message.descriptions = some capital) :
    changelogStep parser changes commit =
      some (stepResult changes commit.sha message capital) := by
  unfold changelogStep stepResult stepChanges2 stepChanges1
  simp only [hp, hcap]

theorem stepChanges1_contains (changes : Changelog) (ty k : String)
    (hb : clContains changes k = true) :
    clContains (stepChanges1 changes ty) k = true := by
  unfold stepChanges1
  split
  · exact hb
  · rw [clContains_append, hb, Bool.true_or]

theorem stepChanges1_contains_self (changes : Changelog) (ty : String) :
    clContains (stepChanges1 changes ty) ty = true := by
  unfold stepChanges1
  split
  · assumption
  · rw [clContains_append]
    simp [clContains]

theorem stepChanges1_get (changes : Changelog) (ty k : String)
    (hb : clContains changes k = true) :
    clGet (stepChanges1 changes ty) k = clGet changes k := by
  unfold stepChanges1
  split
  · rfl
  · exact clGet_append_of_contains k _ changes hb

theorem stepChanges1_get_self (changes : Changelog) (ty : String) :
    clGet (stepChanges1 changes ty) ty = clGet changes ty := by
  unfold stepChanges1
  split
  · rfl
  · rename_i hcon
    have hc : clContains changes ty = false := by
      cases h : clContains changes ty
      · rfl
      · exact absurd h hcon
    rw [clGet_append_new ty [] changes hc, clGet_of_not_contains ty changes hc]

theorem stepChanges2_contains (changes : Changelog) (sha : String)
    (message : ParsedCommit) (capital : String) (k : String)
    (hb : clContains changes k = true) :
    clContains (stepChanges2 changes sha message capital) k = true := by
  unfold stepChanges2
  rw [clContains_clAppend]
  exact stepChanges1_contains changes message.type k hb

theorem stepChanges2_get_ne (changes : Changelog) (sha : String)
    (message : ParsedCommit) (capital : String) (k : String)
    (hne : k ≠ message.type) (hb : clContains changes k = true) :
    clGet (stepChanges2 changes sha message capital) k = clGet changes k := by
  unfold stepChanges2
  rw [clGet_clAppend_ne message.type k (sha, capital) hne,
    stepChanges1_get changes message.type k hb]

theorem stepChanges2_get_type (changes : Changelog) (sha : String)
    (message : ParsedCommit) (capital : String) :
    clGet (stepChanges2 changes sha message capital) message.type =
      clGet changes message.type ++ [(sha, capital)] := by
  unfold stepChanges2
  rw [clGet_clAppend_self message.type (sha, capital) _
    (stepChanges1_contains_self changes message.type),
    stepChanges1_get_self changes message.type]

theorem stepResult_contains (changes : Changelog) (sha : String)
    (message : ParsedCommit) (capital : String) (k : String)
    (hb : clContains changes k = true) :
    clContains (stepResult changes sha message capital) k = true := by
  unfold stepResult
  have h2 := stepChanges2_contains changes sha message capital k hb
  split
  · split
    · rw [clContains_clAppend]
      exact h2
    · exact h2
  · rw [clContains_foldl_clAppend]
    exact h2

theorem stepResult_get_type (changes : Changelog) (sha : String)
    (message : ParsedCommit) (capital : String)
    (hty : message.type ≠ "breaking") :
    clGet (stepResult changes sha message capital) message.type =
      clGet changes message.type ++ [(sha, capital)] := by
  unfold stepResult
  have h2 := stepChanges2_get_type changes sha message capital
  split
  · split
    · rw [clGet_clAppend_ne "breaking" message.type
        (sha, message.descriptions.headD "") hty, h2]
    · exact h2
  · rw [clGet_foldl_clAppend_ne sha "breaking" message.type hty _ _, h2]

theorem stepResult_get_breaking (changes : Changelog) (sha : String)
    (message : ParsedCommit) (capital : String)
    (hb : clContains changes "breaking" = true) (hty : message.type ≠ "breaking") :
    clGet (stepResult changes sha message capital) "breaking" =
      (if message.breaking_descriptions.isEmpty then
        (if message.bump = 3 then
          clGet changes "breaking" ++ [(sha, message.descriptions.headD "")]
         else clGet changes "breaking")
       else
        clGet changes "breaking" ++
          message.breaking_descriptions.map (fun paragraph => (sha, paragraph))) := by
  unfold stepResult
  have hne : "breaking" ≠ message.type := fun h => hty h.symm
  have h2get := stepChanges2_get_ne changes sha message capital "breaking" hne hb
  have h2con := stepChanges2_contains changes sha message capital "breaking" hb
  split
  · split
    · rw [clGet_clAppend_self "breaking" (sha, message.descriptions.headD "") _ h2con,
        h2get]
    · exact h2get
  · rw [clGet_foldl_clAppend sha "breaking" _ _ h2con, h2get]

/-! ## The changelog builder always returns and keeps the reserved key -/

theorem generate_changelog_run :
    ∀ (commits : List Commit) (changes : Changelog),
      clContains changes "breaking" = true →
      ∃ changes',
        commits.foldlM (changelogStep parse_commit_message) changes = some changes' ∧
        clContains changes' "breaking" = true := by
  intro commits
  induction commits with
  | nil => intro changes h; exact ⟨changes, rfl, h⟩
  | cons c cs ih =>
    intro changes h
    cases hp : parse_commit_message c.message with
    | none =>
      obtain ⟨changes', h1, h2⟩ := ih changes h
      refine ⟨changes', ?_, h2⟩
      rw [List.foldlM_cons, changelogStep_unrecognized hp]
      simpa using h1
    | some message =>
      obtain ⟨capital, hcap⟩ := parse_capitalMessage_isSome hp
      obtain ⟨changes', h1, h2⟩ := ih (stepResult changes c.sha message capital)
        (stepResult_contains changes c.sha message capital "breaking" h)
      refine ⟨changes', ?_, h2⟩
      rw [List.foldlM_cons, changelogStep_eq hp hcap]
      simpa using h1

/-! ## Lemmas about the renderer -/

theorem foldl_lines_eq (items : List (String × String)) :
    ∀ out : String,
      items.foldl (fun out item => out ++ "* " ++ item.2 ++ " (" ++ item.1 ++ ")\n") out =
        out ++ joinStrings
          (items.map (fun item => "* " ++ item.2 ++ " (" ++ item.1 ++ ")\n")) := by
  induction items with
  | nil => intro out; simp [joinStrings, String.append_empty]
  | cons x xs ih =>
    intro out
    rw [List.foldl_cons, List.map_cons, ih]
    simp [joinStrings, String.append_assoc]

theorem markdown_foldl_eq :
    ∀ (changelog : Changelog) (start : String),
      changelog.foldl (fun output sec =>
        if sec.2.length = 0 then output
        else
          sec.2.foldl (fun out item => out ++ "* " ++ item.2 ++ " (" ++ item.1 ++ ")\n")
            (output ++ "\n### " ++ pyCapitalize sec.1 ++ "\n")) start =
      start ++ joinStrings (changelog.map renderSection) := by
  intro changelog
  induction changelog with
  | nil => intro start; simp [joinStrings, String.append_empty]
  | cons sec rest ih =>
    intro start
    rw [List.foldl_cons, List.map_cons]
    by_cases h : sec.2.length = 0
    · rw [if_pos h, ih]
      simp [renderSection, h, joinStrings, String.empty_append, String.append_assoc]
    · rw [if_neg h, foldl_lines_eq, ih]
      simp [renderSection, h, joinStrings, String.append_assoc]

/-! ## Claims -/

/-- Claim C1, as stated, is false on the code: in the commit sequence
`["chore: cleanup", "feat: add login"]` the first commit parses to the unmapped
severity 0 (outside `LEVELS`), yet `evaluate_version_bump` prints no
"Unknown bump level" warning at all — the warning fires only when the
*maximum* severity is unmapped — while the evaluation returns "minor". -/
theorem unmapped_severity_not_warned_counterexample :
    0 ∈ parsedBumps [mkCommit "aaa" "chore: cleanup", mkCommit "bbb" "feat: add login"]
        parse_commit_message ∧
    LEVELS 0 = none ∧
    evaluateWarned [mkCommit "aaa" "chore: cleanup", mkCommit "bbb" "feat: add login"]
        parse_commit_message = false ∧
    evaluate_version_bump [mkCommit "aaa" "chore: cleanup", mkCommit "bbb" "feat: add login"]
        parse_commit_message = some "minor" := by
  decide

/-- Claim C1 (amended): when at least one commit parses, an unmapped maximum
severity makes `evaluate_version_bump` report the warning and return no bump,
while a mapped maximum is returned as the bump label with no warning — so an
unmapped severity below the maximum is silently ignored and contributes no
bump, and the evaluation still returns the highest mapped severity. -/
theorem unmapped_severity_handling (p : CommitParser) (commits : List Commit)
    (hne : parsedBumps commits p ≠ []) :
    (LEVELS (listMax (parsedBumps commits p)) = none →
      evaluateWarned commits p = true ∧ evaluate_version_bump commits p = none) ∧
    (∀ lbl, LEVELS (listMax (parsedBumps commits p)) = some lbl →
      evaluateWarned commits p = false ∧ evaluate_version_bump commits p = some lbl) := by
  constructor
  · intro h
    rw [evaluateWarned_eq, evaluate_version_bump_eq, if_neg hne, h]
    refine ⟨?_, rfl⟩
    cases hb : parsedBumps commits p with
    | nil => exact absurd hb hne
    | cons c cs => rfl
  · intro lbl h
    rw [evaluateWarned_eq, evaluate_version_bump_eq, if_neg hne, h]
    exact ⟨by simp, rfl⟩

/-- Witness for the amended claim C1 at the concrete input
`["chore: cleanup", "feat: add login"]`: severity 0 is unmapped but below the
maximum 2, so no warning is printed and the bump is "minor". -/
theorem unmapped_severity_handling_witness :
    evaluateWarned [mkCommit "aaa" "chore: cleanup", mkCommit "bbb" "feat: add login"]
        parse_commit_message = false ∧
    evaluate_version_bump [mkCommit "aaa" "chore: cleanup", mkCommit "bbb" "feat: add login"]
        parse_commit_message = some "minor" :=
  (unmapped_severity_handling parse_commit_message
      [mkCommit "aaa" "chore: cleanup", mkCommit "bbb" "feat: add login"]
      (by decide)).2 "minor" (by decide)

/-- Claim C2: for a commit recognized by the parser, the loop body of
`generate_changelog` appends each breaking paragraph (with the sha) to the
reserved "breaking" key when `breaking_descriptions` is non-empty; otherwise,
when `bump` equals the maximal severity 3, it appends the uncapitalized first
description verbatim; otherwise it leaves the "breaking" entries unchanged. -/
theorem breaking_section_contribution (changes : Changelog) (commit : Commit)
    (message : ParsedCommit) (changes' : Changelog)
    (hp : parse_commit_message commit.message = some message)
    (hb : clContains changes "breaking" = true)
    (hs : changelogStep parse_commit_message changes commit = some changes') :
    clGet changes' "breaking" =
      (if message.breaking_descriptions ≠ [] then
        clGet changes "breaking" ++
          message.breaking_descriptions.map (fun paragraph => (commit.sha, paragraph))
       else if message.bump = 3 then
        clGet changes "breaking" ++ [(commit.sha, message.descriptions.headD "")]
       else clGet changes "breaking") := by
  obtain ⟨capital, hcap⟩ := parse_capitalMessage_isSome hp
  rw [changelogStep_eq hp hcap] at hs
  cases hs
  rw [stepResult_get_breaking changes commit.sha message capital hb
    (parse_type_ne_breaking hp)]
  cases hbd : message.breaking_descriptions with
  | nil => simp [hbd]
  | cons x xs => simp [hbd]

/-- Witness for claim C2 at the breaking-severity commit
`"feat!: remove api"` (no explicit trailer, `bump = 3`) applied to the initial
index: the uncapitalized first description is appended to "breaking". -/
theorem breaking_section_contribution_witness :
    clGet [("breaking", [("bbb", "remove api")]), ("feat", [("bbb", "Remove api")])]
        "breaking" =
      (if ([] : List String) ≠ [] then
        clGet [(("breaking" : String), ([] : List (String × String)))] "breaking" ++
          ([] : List String).map (fun paragraph => (("bbb" : String), paragraph))
       else if (3 : Nat) = 3 then
        clGet [(("breaking" : String), ([] : List (String × String)))] "breaking" ++
          [(("bbb" : String), (["remove api"] : List String).headD "")]
       else clGet [(("breaking" : String), ([] : List (String × String)))] "breaking") :=
  breaking_section_contribution [("breaking", [])] (mkCommit "bbb" "feat!: remove api")
    { bump := 3, type := "feat", scope := none, descriptions := ["remove api"],
      breaking_descriptions := [] }
    [("breaking", [("bbb", "remove api")]), ("feat", [("bbb", "Remove api")])]
    (by decide) (by decide) (by decide)

/-- Claim C3, as stated, is false on the code: the renderer's section header is
Python's `section.capitalize()`, which also lowercases the characters after the
first; on the key `"wOW"` the emitted header is `### Wow`, not the
first-letter-only-uppercased `### WOW` the claim requires. -/
theorem renderer_capitalize_counterexample :
    markdown_changelog "1.0.0" [("wOW", [("sha1", "Desc")])] false =
      "\n### " ++ pyCapitalize "wOW" ++ "\n" ++ "* Desc (sha1)\n" ∧
    ((pyCapitalize "wOW" == specCapitalizeFirstOnly "wOW") = false) ∧
    ((markdown_changelog "1.0.0" [("wOW", [("sha1", "Desc")])] false ==
      "\n### " ++ specCapitalizeFirstOnly "wOW" ++ "\n" ++ "* Desc (sha1)\n") = false) := by
  decide

/-- Claim C3 (amended): `markdown_changelog` renders, after the optional
version header, one block per key in order — nothing at all for a key with no
entries (the reserved "breaking" key included), and otherwise a header equal to
the key with its first character uppercased and the remaining characters
lowercased, followed by one `* description (sha)` line per entry. -/
theorem markdown_changelog_sections (version : String) (changelog : Changelog)
    (header : Bool) :
    markdown_changelog version changelog header =
      (if header then "## v" ++ version ++ "\n" else "") ++
        joinStrings (changelog.map renderSection) := by
  unfold markdown_changelog
  exact markdown_foldl_eq changelog _

/-- Claim C4: `evaluate_version_bump` returns `none` when no commit parses
(in particular on the empty sequence), and otherwise returns the maximum parsed
severity mapped through the `LEVELS` enumeration. -/
theorem evaluator_max_severity (p : CommitParser) (commits : List Commit) :
    (parsedBumps commits p = [] → evaluate_version_bump commits p = none) ∧
    (parsedBumps commits p ≠ [] →
      evaluate_version_bump commits p = LEVELS (listMax (parsedBumps commits p))) := by
  constructor
  · intro h
    rw [evaluate_version_bump_eq, if_pos h]
  · intro h
    rw [evaluate_version_bump_eq, if_neg h]

/-- Witness for claim C4 at the concrete input `["feat: add login"]`. -/
theorem evaluator_max_severity_witness :
    evaluate_version_bump [mkCommit "aaa" "feat: add login"] parse_commit_message =
      LEVELS (listMax (parsedBumps [mkCommit "aaa" "feat: add login"]
        parse_commit_message)) :=
  (evaluator_max_severity parse_commit_message
    [mkCommit "aaa" "feat: add login"]).2 (by decide)

/-- Claim C5: with strictly more than 100 commits collected, `main` exits with
status 1 before any mutation — no version-file write, no git commit, no tag, no
push, no release publication. -/
theorem safety_cap_aborts_without_mutation (currentVersion : String)
    (commits : List Commit) (h : commits.length > 100) :
    mainAfterFetch currentVersion commits = (RunOutcome.exited 1, []) := by
  unfold mainAfterFetch
  rw [if_pos h]

/-- Witness for claim C5 at 101 synthetic commits. -/
theorem safety_cap_aborts_without_mutation_witness :
    mainAfterFetch "1.2.3" (List.replicate 101 (mkCommit "aaa" "feat: x")) =
      (RunOutcome.exited 1, []) :=
  safety_cap_aborts_without_mutation "1.2.3"
    (List.replicate 101 (mkCommit "aaa" "feat: x")) (by simp)

/-- Claim C6: for a commit recognized by the parser whose first description
paragraph is non-empty, the loop body of `generate_changelog` appends under the
commit's type key exactly the pair of the sha and the first description with
its first character uppercased and every other character unchanged. -/
theorem type_section_entry_capitalized (changes : Changelog) (commit : Commit)
    (message : ParsedCommit) (changes' : Changelog) (c : Char) (rest : List Char)
    (tail : List String)
    (hp : parse_commit_message commit.message = some message)
    (hd : message.descriptions = String.mk (c :: rest) :: tail)
    (hs : changelogStep parse_commit_message changes commit = some changes') :
    clGet changes' message.type =
      clGet changes message.type ++ [(commit.sha, String.mk (c.toUpper :: rest))] := by
  have hcap : capitalMessage message.descriptions =
      some (String.mk (c.toUpper :: rest)) := by
    rw [hd]
    simp [capitalMessage]
  rw [changelogStep_eq hp hcap] at hs
  cases hs
  exact stepResult_get_type changes commit.sha message _ (parse_type_ne_breaking hp)

/-- Witness for claim C6 at the commit `"feat: add login"`: the stored entry is
`("aaa", "Add login")`. -/
theorem type_section_entry_capitalized_witness :
    clGet [("breaking", []), ("feat", [("aaa", "Add login")])] "feat" =
      clGet [(("breaking" : String), ([] : List (String × String)))] "feat" ++
        [(("aaa" : String), String.mk ('a'.toUpper :: "dd login".data))] :=
  type_section_entry_capitalized [("breaking", [])] (mkCommit "aaa" "feat: add login")
    { bump := 2, type := "feat", scope := none, descriptions := ["add login"],
      breaking_descriptions := [] }
    [("breaking", []), ("feat", [("aaa", "Add login")])]
    'a' "dd login".data []
    (by decide) (by decide) (by decide)

/-- Claim C7: for every commit sequence — empty, all-unrecognized or mixed —
`generate_changelog` (with the spec-modelled parser) returns an index that
contains the reserved "breaking" key, possibly with an empty entry list. -/
theorem breaking_key_always_present (commits : List Commit) :
    ∃ changes, generate_changelog commits parse_commit_message = some changes ∧
      clContains changes "breaking" = true :=
  generate_changelog_run commits [("breaking", [])] (by decide)

/-- Claim C8: `evaluate_version_bump` is invariant under permutation of the
commit sequence — the result depends only on the multiset of parsed
severities. -/
theorem evaluator_permutation_invariant (p : CommitParser) (l₁ l₂ : List Commit)
    (h : l₁.Perm l₂) :
    evaluate_version_bump l₁ p = evaluate_version_bump l₂ p := by
  have hperm : (parsedBumps l₁ p).Perm (parsedBumps l₂ p) := parsedBumps_perm p h
  rw [evaluate_version_bump_eq, evaluate_version_bump_eq]
  by_cases h1 : parsedBumps l₁ p = []
  · have h2 : parsedBumps l₂ p = [] := ((h1 ▸ hperm).symm).eq_nil
    rw [if_pos h1, if_pos h2]
  · have h2 : parsedBumps l₂ p ≠ [] := by
      intro hnil
      exact h1 (hnil ▸ hperm).eq_nil
    rw [if_neg h1, if_neg h2, listMax_perm hperm]

/-- Witness for claim C8 at a two-element swap. -/
theorem evaluator_permutation_invariant_witness :
    evaluate_version_bump [mkCommit "aaa" "fix: a", mkCommit "bbb" "feat: b"]
        parse_commit_message =
      evaluate_version_bump [mkCommit "bbb" "feat: b", mkCommit "aaa" "fix: a"]
        parse_commit_message :=
  evaluator_permutation_invariant parse_commit_message
    [mkCommit "aaa" "fix: a", mkCommit "bbb" "feat: b"]
    [mkCommit "bbb" "feat: b", mkCommit "aaa" "fix: a"] (by decide)

/-- Claim C9: for every raw sha and raw message, the `Commit` built by the
normalizer has a message with no carriage-return character (each is replaced by
a newline); normalization is a total function by construction. -/
theorem normalizer_removes_carriage_returns (sha message : String) :
    ((mkCommit sha message).message.data.all (fun c => c != '\r')) = true := by
  show (message.data.map (fun c => if c = '\r' then '\n' else c)).all
    (fun c => c != '\r') = true
  rw [List.all_eq_true]
  intro x hx
  rw [List.mem_map] at hx
  obtain ⟨c, -, rfl⟩ := hx
  by_cases h : c = '\r' <;> simp [h]

/-- Claim C10: for a recognized commit that is breaking (explicit trailer
paragraphs, or maximal severity 3), the loop body of `generate_changelog`
still appends the capitalized entry under the commit's type key, and the
"breaking" entry list strictly grows — breaking entries are additions, never
replacements of the type-section entry. -/
theorem breaking_commit_listed_in_both_sections (changes : Changelog)
    (commit : Commit) (message : ParsedCommit) (changes' : Changelog)
    (capital : String)
    (hp : parse_commit_message commit.message = some message)
    (hcap : capitalMessage message.descriptions = some capital)
    (hbreak : message.breaking_descriptions ≠ [] ∨ message.bump = 3)
    (hb : clContains changes "breaking" = true)
    (hs : changelogStep parse_commit_message changes commit = some changes') :
    clGet changes' message.type =
      clGet changes message.type ++ [(commit.sha, capital)] ∧
    (clGet changes "breaking").length < (clGet changes' "breaking").length := by
  rw [changelogStep_eq hp hcap] at hs
  cases hs
  constructor
  · exact stepResult_get_type changes commit.sha message capital
      (parse_type_ne_breaking hp)
  · rw [stepResult_get_breaking changes commit.sha message capital hb
      (parse_type_ne_breaking hp)]
    cases hbd : message.breaking_descriptions with
    | nil =>
      have h3 : message.bump = 3 := by
        cases hbreak with
        | inl hx => exact absurd hbd hx
        | inr hx => exact hx
      simp [hbd, h3]
    | cons x xs =>
      simp [hbd]

/-- Witness for claim C10 at the commit
`"feat!: remove old API\n\nBREAKING CHANGE: old API removed"`: it lands both
under "feat" (capitalized) and under "breaking". -/
theorem breaking_commit_listed_in_both_sections_witness :
    clGet [("breaking", [("bbb", "old API removed")]),
           ("feat", [("bbb", "Remove old API")])] "feat" =
      clGet [(("breaking" : String), ([] : List (String × String)))] "feat" ++
        [(("bbb" : String), ("Remove old API" : String))] ∧
    (clGet [(("breaking" : String), ([] : List (String × String)))] "breaking").length <
      (clGet [("breaking", [("bbb", "old API removed")]),
              ("feat", [("bbb", "Remove old API")])] "breaking").length :=
  breaking_commit_listed_in_both_sections [("breaking", [])]
    (mkCommit "bbb" "feat!: remove old API\n\nBREAKING CHANGE: old API removed")
    { bump := 3, type := "feat", scope := none,
      descriptions := ["remove old API", "BREAKING CHANGE: old API removed"],
      breaking_descriptions := ["old API removed"] }
    [("breaking", [("bbb", "old API removed")]), ("feat", [("bbb", "Remove old API")])]
    "Remove old API"
    (by decide) (by decide) (Or.inl (by decide)) (by decide) (by decide)

end Release
